import Mathlib

/-!
Verification of the App Engine database backend (djangae/db/backends/appengine/base.py).

The development shallowly embeds the backend code: Python values become the
inductive `PyVal` (a Python list is a `cons` chain), Python dictionaries become
association lists with overwrite-on-set semantics, fallible operations return
`Except PyErr`, and the mutable `Cursor` object becomes explicit state passing.
The datastore and the Django cache are external collaborators of the module and
are modelled as plain lists of entities and key-to-entity associations.

Python exceptions are modelled by the kind of exception raised; messages are
dropped.  The class hierarchy of the module (DatabaseError with subclasses
IntegrityError and NotSupportedError, all distinct from the built-in
RuntimeError, AttributeError, AssertionError, IndexError and TypeError) is
reflected by `isDjangoDatabaseError`.
-/

namespace Djangae

inductive PyErr where
  | databaseError
  | integrityError
  | notSupportedError
  | runtimeError
  | attributeError
  | assertionError
  | indexError
  | typeError
  | fieldDoesNotExist
  | recursionError
deriving DecidableEq, Repr

/-- The exception classes declared by the module itself: `DatabaseError` and its
subclasses `IntegrityError` and `NotSupportedError`.  Built-in Python exceptions
such as `RuntimeError` are not instances of the DatabaseError hierarchy. -/
def isDjangoDatabaseError : PyErr → Bool
  | .databaseError => true
  | .integrityError => true
  | .notSupportedError => true
  | _ => false

/-- Python values as they appear in filter values, entity properties and cache
keys.  A Python list `[a, b]` is embedded as `cons a (cons b nil)`. -/
inductive PyVal where
  | int (n : Int)
  | str (s : String)
  | bool (b : Bool)
  | pynone
  | nil
  | cons (head tail : PyVal)
deriving DecidableEq, Repr

/-- Convenience constructor: embed a Lean list of values as a Python list. -/
def pyList (l : List PyVal) : PyVal := l.foldr PyVal.cons PyVal.nil

/-- Recover the elements of an embedded Python list; `none` for non-list
values (iterating a non-iterable value raises `TypeError` in Python). -/
def pyElems : PyVal → Option (List PyVal)
  | .nil => some []
  | .cons h t => (pyElems t).map (fun l => h :: l)
  | _ => Option.none

/-- Python `str(value)`, as used by `"%s:%s" % (field, value)` in
`generate_unique_key`.  Scalars follow the Python rendering; no claim builds a
cache key from a list-valued filter value, so the rendering of list contents is
left as a placeholder. -/
def pyStr : PyVal → String
  | .int n => toString n
  | .str s => s
  | .bool b => if b then "True" else "False"
  | .pynone => "None"
  | .nil => "[]"
  | .cons _ _ => "[...]"

/-- A Django model field, reduced to the attributes the backend reads:
`name`, `column`, `db_type(connection)` (a storage type name such as "text"),
and the `unique`, `primary_key` and `null` flags. -/
structure Field where
  name : String
  column : String
  db_type : String
  unique : Bool
  primary_key : Bool
  null : Bool
deriving DecidableEq, Repr

/-- Model metadata (`model._meta`): application label, kind name (`db_table`),
the ordered field list and the declared `unique_together` tuples (field names). -/
structure Model where
  app_label : String
  db_table : String
  fields : List Field
  unique_together : List (List String)
deriving DecidableEq, Repr

/-- Embeds `model._meta.get_field(name)`; a missing name raises
`FieldDoesNotExist` in Django. -/
def Model.get_field (m : Model) (name : String) : Except PyErr Field :=
  match m.fields.find? (fun f => f.name = name) with
  | some f => .ok f
  | Option.none => .error .fieldDoesNotExist

/-- Embeds `get_uniques_from_model`: the `unique_together` tuples mapped to
column names, followed by one singleton tuple per field declared `unique`.
The source performs no deduplication between the two groups. -/
def get_uniques_from_model (m : Model) : Except PyErr (List (List String)) :=
  match m.unique_together.mapM
      (fun tup => tup.mapM (fun y => (m.get_field y).map (fun f => f.column))) with
  | .error e => .error e
  | .ok togs => .ok (togs ++ (m.fields.filter (fun f => f.unique)).map (fun f => [f.column]))

/-- Lexicographic comparison of character lists by code point, the order Python
uses to compare strings.  (The library order on `String` is not
kernel-computable, so the comparison is spelled out.) -/
def charListLe : List Char → List Char → Bool
  | [], _ => true
  | _ :: _, [] => false
  | c :: cs, d :: ds =>
    if c.toNat < d.toNat then true
    else if d.toNat < c.toNat then false
    else charListLe cs ds

/-- Python string comparison `a <= b`. -/
def strLe (a b : String) : Bool := charListLe a.data b.data

/-- The comparison used by `sorted(fields_and_values, key=lambda x: x[0])`:
pairs ordered by their first component (the field name). -/
def pairLe (a b : String × PyVal) : Prop := strLe a.1 b.1 = true

instance : DecidableRel pairLe := fun a b => inferInstanceAs (Decidable (strLe a.1 b.1 = true))

theorem charListLe_total : ∀ a b, charListLe a b = true ∨ charListLe b a = true
  | [], _ => Or.inl rfl
  | _ :: _, [] => Or.inr rfl
  | c :: cs, d :: ds => by
    rcases Nat.lt_trichotomy c.toNat d.toNat with h | h | h
    · left; simp [charListLe, h]
    · rcases charListLe_total cs ds with ih | ih
      · left; simp [charListLe, h, ih]
      · right; simp [charListLe, h.symm, ih]
    · right; simp [charListLe, h]

theorem charListLe_trans : ∀ a b c, charListLe a b = true → charListLe b c = true →
    charListLe a c = true
  | [], _, _, _, _ => rfl
  | _ :: _, [], _, hab, _ => by simp [charListLe] at hab
  | _ :: _, _ :: _, [], _, hbc => by simp [charListLe] at hbc
  | x :: xs, y :: ys, z :: zs, hab, hbc => by
    simp only [charListLe] at hab hbc ⊢
    rcases Nat.lt_trichotomy x.toNat y.toNat with h1 | h1 | h1
    · rcases Nat.lt_trichotomy y.toNat z.toNat with h2 | h2 | h2
      · simp [Nat.lt_trans h1 h2]
      · simp [h2 ▸ h1]
      · simp [h2, Nat.lt_asymm h2] at hbc
    · rcases Nat.lt_trichotomy y.toNat z.toNat with h2 | h2 | h2
      · simp [h1 ▸ h2]
      · have hxz : x.toNat = z.toNat := h1.trans h2
        simp only [hxz, Nat.lt_irrefl, if_false]
        simp only [h1, Nat.lt_irrefl, if_false] at hab
        simp only [h2, Nat.lt_irrefl, if_false] at hbc
        exact charListLe_trans xs ys zs hab hbc
      · simp [h2, Nat.lt_asymm h2] at hbc
    · simp [h1, Nat.lt_asymm h1] at hab

theorem charListLe_antisymm : ∀ a b, charListLe a b = true → charListLe b a = true → a = b
  | [], [], _, _ => rfl
  | [], _ :: _, _, hba => by simp [charListLe] at hba
  | _ :: _, [], hab, _ => by simp [charListLe] at hab
  | x :: xs, y :: ys, hab, hba => by
    simp only [charListLe] at hab hba
    rcases Nat.lt_trichotomy x.toNat y.toNat with h | h | h
    · simp [h, Nat.lt_asymm h] at hba
    · have hxy : x = y := Char.ext (UInt32.ext h)
      subst hxy
      simp [Nat.lt_irrefl] at hab hba
      rw [charListLe_antisymm xs ys hab hba]
    · simp [h, Nat.lt_asymm h] at hab

instance : IsTotal (String × PyVal) pairLe :=
  ⟨fun a b => charListLe_total a.1.data b.1.data⟩

instance : IsTrans (String × PyVal) pairLe :=
  ⟨fun _ _ _ h1 h2 => charListLe_trans _ _ _ h1 h2⟩

/-- Embeds `generate_unique_key`: sort the (field, value) pairs by field name
with a stable sort (Python `sorted` is stable; `List.insertionSort` is the
stable sort of the library), then render
`"<app_label>.<db_table>|" + "|".join("%s:%s" % (field, value))`. -/
def generate_unique_key (m : Model) (fields_and_values : List (String × PyVal)) : String :=
  let sortedPairs := List.insertionSort pairLe fields_and_values
  m.app_label ++ "." ++ m.db_table ++ "|" ++
    String.intercalate "|" (sortedPairs.map (fun p => p.1 ++ ":" ++ pyStr p.2))

/-- Embeds `Cursor.execute(self, sql, *params)`: the body is a single
`raise RuntimeError(...)`, whatever the arguments. -/
def cursorExecuteSql (_sql : String) (_params : List PyVal) : Except PyErr Unit :=
  .error .runtimeError

/-- C7 (counterexample): the claim says `Cursor.execute` raises `DatabaseError`,
but at the concrete call `execute("SELECT 1")` the source raises the built-in
`RuntimeError`, which is not an instance of the DatabaseError hierarchy. -/
theorem execute_raises_runtime_not_database :
    cursorExecuteSql "SELECT 1" [] = .error .runtimeError ∧
      isDjangoDatabaseError .runtimeError = false :=
  ⟨rfl, rfl⟩

/-- C7 (amended): `Cursor.execute(sql, *params)` always fails, but the raised
exception is the built-in `RuntimeError`, not the DatabaseError kind of the
module. -/
theorem execute_always_runtime_error (sql : String) (params : List PyVal) :
    cursorExecuteSql sql params = .error .runtimeError ∧
      isDjangoDatabaseError .runtimeError = false :=
  ⟨rfl, rfl⟩

/-- Concrete model for the C4 counterexample. -/
def mC4 : Model :=
  { app_label := "blog", db_table := "post", fields := [], unique_together := [] }

/-- C4 (counterexample): `generate_unique_key` is not invariant under all
permutations.  Python `sorted` is stable, so two pairs sharing the field name
"a" keep their input order and the two orders give different keys. -/
theorem generate_unique_key_not_perm_invariant :
    generate_unique_key mC4 [("a", .str "1"), ("a", .str "2")] ≠
      generate_unique_key mC4 [("a", .str "2"), ("a", .str "1")] := by
  decide

/-- Name inequality together with the sort order; antisymmetric, which makes a
sorted permutation with distinct names unique. -/
def pairLeNe (a b : String × PyVal) : Prop := pairLe a b ∧ a.1 ≠ b.1

instance : IsAntisymm (String × PyVal) pairLeNe :=
  ⟨fun _ _ h1 h2 => absurd (String.ext (charListLe_antisymm _ _ h1.1 h2.1)) h1.2⟩

theorem insertionSort_eq_of_perm_of_nodup_names
    (l1 l2 : List (String × PyVal))
    (hperm : l1.Perm l2) (hnodup : (l1.map Prod.fst).Nodup) :
    List.insertionSort pairLe l1 = List.insertionSort pairLe l2 := by
  have hp1 : (List.insertionSort pairLe l1).Perm l1 := List.perm_insertionSort pairLe l1
  have hp2 : (List.insertionSort pairLe l2).Perm l2 := List.perm_insertionSort pairLe l2
  have hps : (List.insertionSort pairLe l1).Perm (List.insertionSort pairLe l2) :=
    (hp1.trans hperm).trans hp2.symm
  have hne1 : List.Pairwise (fun a b : String × PyVal => a.1 ≠ b.1) l1 :=
    (List.pairwise_map (f := (Prod.fst : String × PyVal → String))
      (R := (fun a b : String => a ≠ b)) (l := l1)).mp hnodup
  have hne2 : List.Pairwise (fun a b : String × PyVal => a.1 ≠ b.1) l2 :=
    (hperm.pairwise_iff (fun h e => h e.symm)).mp hne1
  have hsortedNe1 : List.Pairwise (fun a b : String × PyVal => a.1 ≠ b.1)
      (List.insertionSort pairLe l1) := (hp1.pairwise_iff (fun h e => h e.symm)).mpr hne1
  have hsortedNe2 : List.Pairwise (fun a b : String × PyVal => a.1 ≠ b.1)
      (List.insertionSort pairLe l2) := (hp2.pairwise_iff (fun h e => h e.symm)).mpr hne2
  have hs1 : List.Sorted pairLe (List.insertionSort pairLe l1) :=
    List.sorted_insertionSort pairLe l1
  have hs2 : List.Sorted pairLe (List.insertionSort pairLe l2) :=
    List.sorted_insertionSort pairLe l2
  have hstrict1 : List.Sorted pairLeNe (List.insertionSort pairLe l1) :=
    (hs1.and hsortedNe1).imp (fun h => ⟨h.1, h.2⟩)
  have hstrict2 : List.Sorted pairLeNe (List.insertionSort pairLe l2) :=
    (hs2.and hsortedNe2).imp (fun h => ⟨h.1, h.2⟩)
  exact List.eq_of_perm_of_sorted hps hstrict1 hstrict2

/-- C4 (amended): for pair lists whose field names are pairwise distinct,
`generate_unique_key` is invariant under permutation of the pairs, and the
returned string has the format
`"<app_label>.<db_table>|<field>:<value>|..."` over a name-sorted permutation
of the input pairs.  (With a repeated field name the stable sort keeps the
input order of the tied pairs, so full permutation invariance fails; see the
counterexample.) -/
theorem generate_unique_key_sorted_format (m : Model)
    (l1 l2 : List (String × PyVal))
    (hperm : l1.Perm l2) (hnodup : (l1.map Prod.fst).Nodup) :
    generate_unique_key m l1 = generate_unique_key m l2 ∧
      ∃ l3, l3.Perm l1 ∧ List.Pairwise pairLe l3 ∧
        generate_unique_key m l1 =
          m.app_label ++ "." ++ m.db_table ++ "|" ++
            String.intercalate "|" (l3.map (fun p => p.1 ++ ":" ++ pyStr p.2)) := by
  constructor
  · unfold generate_unique_key
    rw [insertionSort_eq_of_perm_of_nodup_names l1 l2 hperm hnodup]
  · exact ⟨List.insertionSort pairLe l1, List.perm_insertionSort pairLe l1,
      List.sorted_insertionSort pairLe l1, rfl⟩

/-- C4 (witness): the amended theorem applied to a concrete permutation with
distinct field names. -/
theorem generate_unique_key_sorted_format_witness :
    generate_unique_key mC4 [("slug", .str "hello"), ("rank", .int 3)] =
      generate_unique_key mC4 [("rank", .int 3), ("slug", .str "hello")] := by
  exact (generate_unique_key_sorted_format mC4
    [("slug", .str "hello"), ("rank", .int 3)]
    [("rank", .int 3), ("slug", .str "hello")]
    (List.Perm.swap _ _ _) (by decide)).1

/-- Concrete model for the C8 counterexample: field `f` is declared `unique`
and also appears alone inside `unique_together`. -/
def mC8 : Model :=
  { app_label := "a", db_table := "t",
    fields := [{ name := "f", column := "f", db_type := "string",
                 unique := true, primary_key := false, null := false }],
    unique_together := [["f"]] }

/-- C8 (counterexample): the enumeration returns the column tuple `["f"]`
twice at `mC8` — once from `unique_together` and once from the `unique`
flag — so the result list contains duplicate column tuples, contrary to the
claim. -/
theorem get_uniques_duplicates :
    get_uniques_from_model mC8 = .ok [["f"], ["f"]] ∧
      ¬ ([["f"], ["f"]] : List (List String)).Nodup := by
  exact ⟨rfl, by decide⟩

theorem mapM_mem_of_mem {α β : Type} {g : α → Except PyErr β} {l : List α} {L : List β}
    (h : l.mapM g = .ok L) {x : α} (hx : x ∈ l) {y : β} (hy : g x = .ok y) : y ∈ L := by
  induction l generalizing L with
  | nil => cases hx
  | cons a rest ih =>
    rw [List.mapM_cons] at h
    cases hga : g a with
    | error e => rw [hga] at h; simp [Bind.bind, Except.bind] at h
    | ok b =>
      rw [hga] at h
      simp only [Bind.bind, Except.bind] at h
      cases hrest : rest.mapM g with
      | error e => rw [hrest] at h; simp [Except.bind] at h
      | ok L' =>
        rw [hrest] at h
        simp only [pure, Except.pure, Except.ok.injEq] at h
        subst h
        cases hx with
        | head => rw [hga] at hy; cases hy; exact List.mem_cons_self _ _
        | tail _ hx' => exact List.mem_cons_of_mem _ (ih hrest hx')

/-- C8 (amended): the enumeration performs no deduplication — for every model
where some field `f` is declared `unique` and its name also forms a singleton
`unique_together` tuple (and the name resolves back to `f`), the column tuple
`[f.column]` appears at least twice in the result. -/
theorem get_uniques_no_dedup (m : Model) (f : Field) (L : List (List String))
    (hf : f ∈ m.fields) (hu : f.unique = true)
    (ht : [f.name] ∈ m.unique_together)
    (hres : m.get_field f.name = .ok f)
    (hok : get_uniques_from_model m = .ok L) :
    2 ≤ L.count [f.column] := by
  unfold get_uniques_from_model at hok
  cases htogs : m.unique_together.mapM
      (fun tup => tup.mapM (fun y => (m.get_field y).map (fun f => f.column))) with
  | error e => rw [htogs] at hok; cases hok
  | ok togs =>
    rw [htogs] at hok
    simp only [Except.ok.injEq] at hok
    subst hok
    have hmem1 : [f.column] ∈ togs := by
      apply mapM_mem_of_mem htogs ht
      show [f.name].mapM (fun y => (m.get_field y).map (fun f => f.column)) = .ok [f.column]
      rw [List.mapM_cons, hres]
      simp only [Bind.bind, Except.bind, Except.map, pure, Except.pure]
      rfl
    have hmem2 : [f.column] ∈ (m.fields.filter (fun f => f.unique)).map (fun f => [f.column]) := by
      apply List.mem_map_of_mem
      exact List.mem_filter.mpr ⟨hf, by simp [hu]⟩
    rw [List.count_append]
    have h1 : 0 < togs.count [f.column] := List.count_pos_iff.mpr hmem1
    have h2 : 0 < ((m.fields.filter (fun f => f.unique)).map (fun f => [f.column])).count
        [f.column] := List.count_pos_iff.mpr hmem2
    omega

/-- C8 (witness): the amended theorem at the concrete model `mC8`. -/
theorem get_uniques_no_dedup_witness :
    2 ≤ ([["f"], ["f"]] : List (List String)).count ["f"] := by
  exact get_uniques_no_dedup mC8
    { name := "f", column := "f", db_type := "string",
      unique := true, primary_key := false, null := false }
    [["f"], ["f"]] (by decide) rfl (by decide) rfl rfl

/-!
## The native query model and the cursor state

`datastore.Query` is a dict subclass: the dict items are the filters, keyed by
the string `"<property> <operator>"`, while the projection lives in the query
options set at construction time.  Consequently:
  * dict assignment overwrites an existing key in place (`dictSet`);
  * `new_query.update(query)` copies the dict items (the filters) but NOT the
    projection (`dictUpdate`);
  * a query with no filters is an empty dict, which is FALSY in Python — this
    matters in `_apply_filter`, whose first line is
    `query_to_update = query_to_update or self.query`.
Filter keys are modelled as the pair (column, operator), which is in bijection
with the source's `"%s %s" % (column, op)` for space-free column names.
-/

/-- A filter dictionary: association list with Python-dict overwrite-on-set. -/
def dictSet (d : List ((String × String) × PyVal)) (k : String × String) (v : PyVal) :
    List ((String × String) × PyVal) :=
  if (d.find? (fun p => p.1 = k)).isSome then
    d.map (fun p => if p.1 = k then (k, v) else p)
  else d ++ [(k, v)]

/-- Python `dst.update(src)`: set every item of `src` into `dst` in order. -/
def dictUpdate (dst src : List ((String × String) × PyVal)) :
    List ((String × String) × PyVal) :=
  src.foldl (fun acc p => dictSet acc p.1 p.2) dst

/-- A native datastore query: a kind, the filter dict, and the projection from
the query options (`None` when no projection was requested). -/
structure Query where
  kind : String
  filters : List ((String × String) × PyVal)
  projection : Option (List String)
deriving DecidableEq, Repr

/-- An element of `Cursor.queries`: either a plain `datastore.Query` or the
`datastore.MultiQuery` envelope produced at the end of
`execute_appengine_query`.  A multi-query over another multi-query never
arises in driver flows (the wrap happens once, over plain queries), so the
envelope holds plain queries. -/
inductive NQ where
  | single (q : Query)
  | multi (qs : List Query)
deriving DecidableEq, Repr

/-- An entity key: integer id or string name; `id_or_name()` returns one of
the two. -/
inductive Key where
  | id (n : Int)
  | name (s : String)
deriving DecidableEq, Repr

def Key.id_or_name : Key → PyVal
  | .id n => .int n
  | .name s => .str s

/-- A datastore entity: kind-tagged property dict with an assigned key. -/
structure Entity where
  kind : String
  key : Key
  props : List (String × PyVal)
deriving DecidableEq, Repr

/-- `entity.get(col)`: the property value, `None` when absent.  The reserved
column `__key__` addresses the key (the datastore matches key filters against
the entity key). -/
def entityGet (e : Entity) (col : String) : PyVal :=
  if col = "__key__" then e.key.id_or_name
  else match e.props.find? (fun p => p.1 = col) with
       | some p => p.2
       | Option.none => .pynone

/-- The mutable state of `Cursor`, one field per attribute the embedded
methods touch. -/
structure Cursor where
  results : Option (List Entity)
  queries : List NQ
  start_cursor : Option Nat
  returned_ids : List Key
  queried_fields : List String
  query_done : Bool
  all_filters : List (String × String × PyVal)
  last_query_model : Option Model
deriving DecidableEq, Repr

/-- `Cursor.__init__`: fresh driver-created cursor (note `query_done = True`). -/
def initCursor : Cursor :=
  { results := Option.none, queries := [], start_cursor := Option.none,
    returned_ids := [], queried_fields := [], query_done := true,
    all_filters := [], last_query_model := Option.none }

/-- `OPERATORS_MAP`: outer `none` = lookup type not supported at all; inner
`none` = the lookup needs special code in `_apply_filter`. -/
def OPERATORS_MAP : List (String × Option String) :=
  [("exact", some "="), ("gt", some ">"), ("gte", some ">="),
   ("lt", some "<"), ("lte", some "<="),
   ("isnull", Option.none), ("in", Option.none), ("startswith", Option.none),
   ("range", Option.none), ("year", Option.none)]

def opLookup (lk : String) : Option (Option String) :=
  (OPERATORS_MAP.find? (fun p => p.1 = lk)).map (fun p => p.2)

/-- The condition on which `_update_projection_state` disables projection:
storage type text/bytes, or an exact/in lookup. -/
def badCombo (f : Field) (lk : String) : Bool :=
  f.db_type = "text" || f.db_type = "bytes" || lk = "exact" || lk = "in"

/-- Rebuilding one pending query as `datastore.Query(query._Query__kind)`
followed by `new_query.update(query)`: the filters survive, the projection is
dropped.  A `MultiQuery` has no `_Query__kind` attribute. -/
def rebuildOne : NQ → Except PyErr NQ
  | .single q =>
      .ok (NQ.single { kind := q.kind, filters := dictUpdate [] q.filters,
                       projection := Option.none })
  | .multi _ => .error .attributeError

/-- Embeds `_update_projection_state(field, lookup_type)`.  Reads the
projection of `self.query` (= `queries[0]`); returns early when there is no
projection or the column is not projected; otherwise, when the type/lookup
combination forbids projection, rebuilds every pending query without its
projection.  The returned flag records whether the rebuild happened — after a
rebuild the pre-existing `queries[0]` object is detached from the cursor, so a
caller holding it writes into a dead object. -/
def updateProjectionState (f : Field) (lk : String) (st : Cursor) :
    Except PyErr (Cursor × Bool) :=
  match st.queries with
  | [] => .error .indexError
  | q0 :: _ =>
    match q0 with
    | .multi _ => .error .attributeError
    | .single qq =>
      let pf := match qq.projection with
                | Option.none => ([] : List String)
                | some l => l
      if pf.isEmpty || !(pf.contains f.column) then .ok (st, false)
      else if badCombo f lk then
        match st.queries.mapM rebuildOne with
        | .error e => .error e
        | .ok qs2 => .ok ({st with queries := qs2}, true)
      else .ok (st, false)

/-- Write a filter into `self.query` (= `queries[0]`):
`query_to_update["%s %s" % (column, op)] = value`. -/
def writeQ0 (st : Cursor) (k : String × String) (v : PyVal) : Except PyErr Cursor :=
  match st.queries with
  | NQ.single q :: rest =>
      .ok {st with queries := NQ.single {q with filters := dictSet q.filters k v} :: rest}
  | NQ.multi _ :: _ => .error .typeError
  | [] => .error .indexError

/-!
## The WHERE-tree lowerer

`_apply_filter` / `_apply_filters`, embedded after `_parse_child`: a leaf
carries the resolved field, the lookup type and the normalized value.

The IN expansion (`lookup_type == "in"`) recursively calls
`_apply_filter(model, field, "exact", negated, v, query_to_update=new_query)`.
Its first line `query_to_update = query_to_update or self.query` consults the
TRUTHINESS of `new_query`: a clone with no filters is an empty dict, hence
falsy, and the call falls back to `self.query` — the equality filter then
lands on `queries[0]` (still the query being cloned) instead of on the clone.
`applyExactTo` reproduces this.

One aliasing note: the loop `for query in self.queries` iterates the list
object captured at loop entry, and the fallback write mutates `queries[0]` of
that same list, so later clone reads observe it; the embedding reads the
current `st.queries` at index `i`, which agrees because
`_update_projection_state` can never rebuild the list mid-loop (the outer
`_apply_filter` call for the `in` lookup has already cleared the projection of
the expanded column, or it was never projected). -/
def applyExactTo (f : Field) (v : PyVal) (st : Cursor) (new_query : Query) :
    Except PyErr (Cursor × Query) :=
  let column := if f.primary_key then "__key__" else f.column
  match new_query.filters with
  | [] =>
    -- the filterless clone is an empty dict, hence falsy:
    -- query_to_update := self.query (queries[0])
    (match st.queries with
     | [] => .error .indexError
     | _ :: _ =>
       match updateProjectionState f "exact" st with
       | .error e => .error e
       | .ok (st1, true) =>
         -- the write targets the pre-rebuild queries[0] object, now detached
         .ok (st1, new_query)
       | .ok (st1, false) =>
         match writeQ0 st1 (column, "=") v with
         | .error e => .error e
         | .ok st2 => .ok (st2, new_query))
  | _ :: _ =>
    match updateProjectionState f "exact" st with
    | .error e => .error e
    | .ok (st1, _) =>
      .ok (st1, {new_query with filters := dictSet new_query.filters (column, "=") v})

/-- The inner loop of the IN expansion: `for v in value` over the pending
query at index `i` (read from the current state, see `applyExactTo`). -/
def inExpandVals (model : Model) (f : Field) (i : Nat) (vs : List PyVal)
    (st : Cursor) (acc : List NQ) : Except PyErr (Cursor × List NQ) :=
  match vs with
  | [] => .ok (st, acc)
  | v :: rest =>
    match st.queries.get? i with
    | Option.none => .error .indexError
    | some (.multi _) => .error .typeError
    | some (.single src) =>
      -- new_query = datastore.Query(model._meta.db_table); new_query.update(query)
      let new_query : Query := { kind := model.db_table,
                                 filters := dictUpdate [] src.filters,
                                 projection := Option.none }
      match applyExactTo f v st new_query with
      | .error e => .error e
      | .ok (st1, nq1) => inExpandVals model f i rest st1 (acc ++ [NQ.single nq1])

/-- The outer loop of the IN expansion: `for query in self.queries`. -/
def inExpandQueries (model : Model) (f : Field) (idxs : List Nat) (vs : List PyVal)
    (st : Cursor) (acc : List NQ) : Except PyErr (Cursor × List NQ) :=
  match idxs with
  | [] => .ok (st, acc)
  | i :: restIdx =>
    match inExpandVals model f i vs st acc with
    | .error e => .error e
    | .ok (st1, acc1) => inExpandQueries model f restIdx vs st1 acc1

/-- The whole `in` branch of `_apply_filter`: build the cartesian fan-out in
`new_queries`, then `self.queries = new_queries`. -/
def inExpand (model : Model) (f : Field) (st : Cursor) (vs : List PyVal) :
    Except PyErr Cursor :=
  match inExpandQueries model f (List.range st.queries.length) vs st [] with
  | .error e => .error e
  | .ok (st1, acc) => .ok {st1 with queries := acc}

/-- Embeds `_apply_filter(model, field, lookup_type, negated, value)` as
called from `_apply_filters` (no explicit `query_to_update`; the `negated`
argument is never consumed and is omitted).  Returns the possibly-updated
state and the `(column, op, value)` triple, or `none` for the IN branch.
For `isnull`, `startswith`, `range` and `year` the operator map yields `None`
and the code falls through `pdb.set_trace()` into `assert(op is not None)`,
which fails. -/
def applyFilter (model : Model) (f : Field) (lk : String) (v : PyVal) (st : Cursor) :
    Except PyErr (Cursor × Option (String × String × PyVal)) :=
  match st.queries with
  | [] => .error .indexError  -- query_to_update = ... or self.query
  | _ :: _ =>
    match opLookup lk with
    | Option.none => .error .databaseError  -- Lookup type %r is not supported
    | some mappedOp =>
      let column := if f.primary_key then "__key__" else f.column
      match updateProjectionState f lk st with
      | .error e => .error e
      | .ok (st1, rebuilt) =>
        match mappedOp with
        | some op =>
          (match rebuilt with
           | true =>
             -- the write targets the detached pre-rebuild queries[0] object
             .ok (st1, some (column, op, v))
           | false =>
             match writeQ0 st1 (column, op) v with
             | .error e => .error e
             | .ok st2 => .ok (st2, some (column, op, v)))
        | Option.none =>
          if lk = "in" then
            match pyElems v with
            | some vs =>
              match inExpand model f st1 vs with
              | .error e => .error e
              | .ok st2 => .ok (st2, Option.none)
            | Option.none => .error .typeError  -- `for v in value` on a non-iterable
          else .error .assertionError  -- pdb.set_trace(); assert(op is not None)

/-- A predicate tree after `_parse_child`: internal `Node`s with a connector
and a `negated` flag, leaves carrying (field, lookup_type, value). -/
inductive WTree where
  | leaf (f : Field) (lk : String) (v : PyVal)
  | node (connector : String) (negated : Bool) (children : List WTree)

/-- The third and fourth arguments of `_apply_filters`.  The call site for a
nested `Node` child passes them in swapped order
(`self._apply_filters(model, child, negated, all_filters)` against the
signature `(self, model, where, all_filters, negated=False)`), so either
parameter may hold the boolean or the one `all_filters` list object created in
`execute_appengine_query`.  `theList` stands for that single list object,
whose contents live in `Cursor.all_filters`. -/
inductive Dyn where
  | bool (b : Bool)
  | theList
deriving DecidableEq, Repr

/-- Python truthiness of a `Dyn` value at the current state (an empty list is
falsy). -/
def dynTruthy (st : Cursor) : Dyn → Bool
  | .bool b => b
  | .theList => !st.all_filters.isEmpty

/-- `all_filters.append(applied_filter)`: appending to the list object works;
`append` on a bool raises `AttributeError`. -/
def dynAppend (st : Cursor) (d : Dyn) (t : String × String × PyVal) : Except PyErr Cursor :=
  match d with
  | .theList => .ok {st with all_filters := st.all_filters ++ [t]}
  | .bool _ => .error .attributeError

/-- Python recursion limit, standing in for the finitely many stack frames a
traversal may use; any tree of depth below the limit is unaffected. -/
def RECURSION_LIMIT : Nat := 1000

/-- The child loop of `_apply_filters`, processing a list of children with the
current `all_filters` and `negated` argument values (`allf`, `negd`).  A
nested `Node` child is processed by the body of `_apply_filters` inlined
(toggle `negated` when the node is negated, reject OR when the toggled
`negated` is falsy), called with the two arguments SWAPPED, as in the source.
Fuel decreases on every step; the entry point supplies the recursion limit. -/
def applyFiltersList : Nat → Model → Cursor → List WTree → Dyn → Dyn →
    Except PyErr Cursor
  | 0, _, _, _, _, _ => .error .recursionError
  | _ + 1, _, st, [], _, _ => .ok st
  | fuel + 1, model, st, (.leaf f lk v) :: rest, allf, negd =>
    (match applyFilter model f lk v st with
     | .error e => .error e
     | .ok (st1, trip?) =>
       match trip? with
       | some t =>
         (match dynAppend st1 allf t with
          | .error e => .error e
          | .ok st2 => applyFiltersList fuel model st2 rest allf negd)
       | Option.none => applyFiltersList fuel model st1 rest allf negd)
  | fuel + 1, model, st, (.node conn negFlag ch) :: rest, allf, negd =>
    -- recursive call `self._apply_filters(model, child, negated, all_filters)`:
    -- the inner `all_filters` is OUR `negd`, the inner `negated` is OUR `allf`
    let negdInner := match negFlag with
                     | true => Dyn.bool (!(dynTruthy st allf))
                     | false => allf
    if !(dynTruthy st negdInner) && conn ≠ "AND" then .error .databaseError
    else
      (match applyFiltersList fuel model st ch negd negdInner with
       | .error e => .error e
       | .ok st1 => applyFiltersList fuel model st1 rest allf negd)

/-- Embeds `_apply_filters(model, where, all_filters)` as called from
`execute_appengine_query` (with the cursor attribute `self.all_filters` as the
list and the default `negated=False`).  Called on a leaf tuple, attribute
access `where.negated` raises `AttributeError`. -/
def apply_filters (model : Model) (st : Cursor) (t : WTree) : Except PyErr Cursor :=
  match t with
  | .leaf _ _ _ => .error .attributeError
  | .node conn negFlag ch =>
    let negd := match negFlag with
                | true => Dyn.bool (!(dynTruthy st (Dyn.bool false)))
                | false => Dyn.bool false
    if !(dynTruthy st negd) && conn ≠ "AND" then .error .databaseError
    else applyFiltersList RECURSION_LIMIT model st ch Dyn.theList negd

/-- The select side of the ORM query object: the selected columns
(`x.col[1] for x in query.select`) and the WHERE tree. -/
structure SelectQuery where
  select : List String
  whereTree : WTree

/-- Replace the first occurrence (the `list.index` / assignment pair guarded
by `except ValueError: pass`). -/
def replaceFirst : List String → String → String → List String
  | [], _, _ => []
  | x :: rest, a, b => if x = a then b :: rest else x :: replaceFirst rest a b

def asPlainQuery : NQ → Except PyErr Query
  | .single q => .ok q
  | .multi _ => .error .typeError

/-- The state mutations of `execute_appengine_query` before the WHERE
traversal: install the fresh query as `self.query` (the setter replaces
`queries[0]`, keeping any tail), store `queried_fields`, reset `all_filters`. -/
def setupQueryState (model : Model) (c : Cursor) (queried : List String)
    (projection : Option (List String)) : Cursor :=
  { c with
    queries := (match c.queries with
                | [] => [NQ.single { kind := model.db_table, filters := [],
                                     projection := projection }]
                | _ :: rest => NQ.single { kind := model.db_table, filters := [],
                                           projection := projection } :: rest),
    queried_fields := queried,
    all_filters := [] }

/-- Embeds the non-insert branch of `execute_appengine_query(model, query)`:
set up `queried_fields` and the projection, install the fresh query, reset
`all_filters`, run the WHERE traversal, then wrap in a `MultiQuery` when more
than one query is pending.  The insert branch is not modelled (no claim
touches it). -/
def execute_appengine_query (model : Model) (q : SelectQuery) (c : Cursor) :
    Except PyErr Cursor :=
  match model.fields.find? (fun f => f.primary_key) with
  | Option.none => .error .attributeError  -- model._meta.pk on a model without pk
  | some pkf =>
    -- queried_fields := selected columns, or all columns when no projection was
    -- requested; the primary key name is rewritten to __key__ before the query
    -- object is built, so the projection list carries the rewritten name
    let queried := replaceFirst
      (if q.select.isEmpty then model.fields.map (fun f => f.column) else q.select)
      pkf.name "__key__"
    let projection := if q.select.isEmpty then Option.none else some queried
    match apply_filters model (setupQueryState model c queried projection) q.whereTree with
    | .error e => .error e
    | .ok st1 =>
      match st1.queries with
      | q1 :: q2 :: rest =>
        (match (q1 :: q2 :: rest).mapM asPlainQuery with
         | .error e => .error e
         | .ok plain =>
           .ok {st1 with queries := [NQ.multi plain],
                         last_query_model := some model, query_done := false})
      | _ => .ok {st1 with last_query_model := some model, query_done := false}

/-!
## The datastore and the cache (external collaborators)

Modelled from the spec: the datastore holds entities; a query returns the
entities of its kind satisfying every filter; `Run(limit=size, start=cursor)`
returns at most `size` entities starting at the continuation offset and
`GetCursor()` returns the new offset; a multi-query result is the
concatenation of the results of its queries and supports no continuation.
List-valued (repeated) properties and type coercions of the real datastore
are not modelled; no claim exercises them. -/

def pyEq (a b : PyVal) : Bool := decide (a = b)

def pyLt : PyVal → PyVal → Bool
  | .int a, .int b => decide (a < b)
  | .str a, .str b => charListLe a.data b.data && decide (a ≠ b)
  | _, _ => false

def evalOp (op : String) (a b : PyVal) : Bool :=
  if op = "=" then pyEq a b
  else if op = ">" then pyLt b a
  else if op = ">=" then pyLt b a || pyEq a b
  else if op = "<" then pyLt a b
  else if op = "<=" then pyLt a b || pyEq a b
  else false

def matchesQuery (q : Query) (e : Entity) : Bool :=
  e.kind = q.kind && q.filters.all (fun p => evalOp p.1.2 (entityGet e p.1.1) p.2)

def runQuery (ds : List Entity) (q : Query) : List Entity := ds.filter (matchesQuery q)

def runMulti (ds : List Entity) (qs : List Query) : List Entity :=
  qs.foldr (fun q acc => runQuery ds q ++ acc) []

/-- The Django cache, for reads: `cache.get(key)` returns the entity or
`None`. -/
def cacheGet (cache : List (String × Entity)) (k : String) : Option Entity :=
  (cache.find? (fun p => p.1 = k)).map (fun p => p.2)

/-- Association list with Python-dict overwrite semantics, for the
`{x[0]: x[2] for x in exact_filters}` comprehension (a later entry for the
same column wins). -/
def assocSet (d : List (String × PyVal)) (k : String) (v : PyVal) : List (String × PyVal) :=
  if (d.find? (fun p => p.1 = k)).isSome then
    d.map (fun p => if p.1 = k then (k, v) else p)
  else d ++ [(k, v)]

def assocGet? (d : List (String × PyVal)) (k : String) : Option PyVal :=
  (d.find? (fun p => p.1 = k)).map (fun p => p.2)

/-- The `{column: value}` map of the `"="` filters of `all_filters`. -/
def exactLookup (filters : List (String × String × PyVal)) : List (String × PyVal) :=
  (filters.filter (fun t => t.2.1 = "=")).foldl (fun acc t => assocSet acc t.1 t.2.2) []

/-- The for/else loop over the fields of one unique combination: the key parts
`(field, lookup[field])` when every field is covered, `none` when the loop
breaks on a missing field. -/
def coveredKey (lookup : List (String × PyVal)) (fields : List String) :
    Option (List (String × PyVal)) :=
  if fields.all (fun fl => (assocGet? lookup fl).isSome) then
    some (fields.map (fun fl => (fl, (assocGet? lookup fl).getD PyVal.pynone)))
  else Option.none

/-- The cache probe of `fetchmany`: guarded by the truthiness of
`self.all_filters` and `self.last_query_model`; every fully covered unique
combination overwrites `entity_from_cache` with its probe result (so a hit
followed by a covered miss is forgotten, as in the source). -/
def cacheProbe (cache : List (String × Entity)) (c : Cursor) : Except PyErr (Option Entity) :=
  if c.all_filters.isEmpty then .ok Option.none
  else match c.last_query_model with
  | Option.none => .ok Option.none
  | some m =>
    match get_uniques_from_model m with
    | .error e => .error e
    | .ok combos =>
      let lookup := exactLookup c.all_filters
      .ok (combos.foldl (fun acc fields =>
            match coveredKey lookup fields with
            | some kp => cacheGet cache (generate_unique_key m kp)
            | Option.none => acc) Option.none)

/-- Embeds `fetchmany(size)`.  Exhausted cursors return `[]` at once (no
datastore or cache access: the result does not depend on `ds` or `cache`).
Otherwise, when no results are stored yet: no pending query raises
`Database.Error` (= DatabaseError); a `MultiQuery` head runs to completion
ignoring `size` and exhausts the cursor; a plain query first probes the cache
(a hit yields that single entity, exhausts the cursor and clears the
continuation), and on a miss fetches `limit=size` from the continuation
offset, exhausting only when the fetch comes back empty.  Rows are built from
`queried_fields`, unwrapping `__key__` to `id_or_name()`. -/
def fetchmany (ds : List Entity) (cache : List (String × Entity)) (c : Cursor)
    (size : Nat) : Except PyErr (List (List PyVal) × Cursor) :=
  if c.query_done then .ok ([], c)
  else
    match (match c.results with
      | some _ => (.ok c : Except PyErr Cursor)
      | Option.none =>
        match c.queries with
        | [] => .error .databaseError
        | q0 :: _ =>
          match q0 with
          | .multi qs => .ok {c with results := some (runMulti ds qs), query_done := true}
          | .single q =>
            match cacheProbe cache c with
            | .error e => .error e
            | .ok (some e) =>
                .ok {c with results := some [e], query_done := true,
                            start_cursor := Option.none}
            | .ok Option.none =>
                let start := c.start_cursor.getD 0
                let res := ((runQuery ds q).drop start).take size
                .ok {c with results := some res,
                            start_cursor := some (start + res.length),
                            query_done := res.isEmpty}) with
    | .error e => .error e
    | .ok c1 =>
      .ok ((c1.results.getD []).map (fun e =>
            c1.queried_fields.map (fun col =>
              if col = "__key__" then e.key.id_or_name else entityGet e col)), c1)

/-!
## Concrete fixtures for the lowering and fetch claims
-/

def fId : Field := { name := "id", column := "id", db_type := "key",
                     unique := false, primary_key := true, null := false }

def fC : Field := { name := "c", column := "c", db_type := "string",
                    unique := false, primary_key := false, null := true }

def mT : Model := { app_label := "a", db_table := "t", fields := [fId, fC],
                    unique_together := [] }

/-- C1 failing input: an accepted AND tree with a nested Node child holding an
exact leaf. -/
def qC1 : SelectQuery :=
  { select := [],
    whereTree := .node "AND" false [.node "AND" false [.leaf fC "exact" (.int 5)]] }

/-- C1: lowering the nested tree does not record the nested triple in
`all_filters` — the recursive call passes `negated` where `all_filters` is
expected, so the append hits the boolean and raises `AttributeError`. -/
theorem nested_filters_crash :
    execute_appengine_query mT qC1 initCursor = .error .attributeError := rfl

/-- C2 failing input: a single `c IN [1, 2]` predicate on a fresh query. -/
def qC2 : SelectQuery :=
  { select := [],
    whereTree := .node "AND" false [.leaf fC "in" (pyList [.int 1, .int 2])] }

/-- The cursor the lowering of `qC2` actually produces. -/
def c2res : Cursor :=
  { results := Option.none,
    queries := [NQ.multi [{ kind := "t", filters := [], projection := Option.none },
                          { kind := "t", filters := [(("c", "="), PyVal.int 2)],
                            projection := Option.none }]],
    start_cursor := Option.none, returned_ids := [],
    queried_fields := ["__key__", "c"], query_done := false,
    all_filters := [], last_query_model := some mT }

/-- C2: expanding `c IN [1, 2]` over a fresh (filterless) pending query emits
two native queries as the claim counts, but the first carries NO equality
filter: the empty clone is falsy, so `query_to_update or self.query` redirects
the `(c, =, 1)` write onto the original `queries[0]`, which the expansion then
discards (the value 2 is picked up only because the mutated original is cloned
next). -/
theorem in_expansion_drops_first_filter :
    execute_appengine_query mT qC2 initCursor = .ok c2res ∧
      c2res.queries = [NQ.multi [{ kind := "t", filters := [], projection := Option.none },
                                 { kind := "t", filters := [(("c", "="), PyVal.int 2)],
                                   projection := Option.none }]] :=
  ⟨rfl, rfl⟩

/-- C5: the four lookups the spec calls specially lowered all crash: the
operator map yields `None`, only `"in"` has special code, and the remaining
`None` cases fall into `pdb.set_trace()` / `assert(op is not None)`. -/
theorem special_lookups_crash :
    execute_appengine_query mT
        { select := [], whereTree := .node "AND" false [.leaf fC "isnull" (.bool true)] }
        initCursor = .error .assertionError ∧
    execute_appengine_query mT
        { select := [], whereTree := .node "AND" false [.leaf fC "startswith" (.str "he")] }
        initCursor = .error .assertionError ∧
    execute_appengine_query mT
        { select := [], whereTree := .node "AND" false
            [.leaf fC "range" (pyList [.int 1, .int 2])] }
        initCursor = .error .assertionError ∧
    execute_appengine_query mT
        { select := [], whereTree := .node "AND" false [.leaf fC "year" (pyList [.int 2014])] }
        initCursor = .error .assertionError :=
  ⟨rfl, rfl, rfl, rfl⟩

/-- C10 input: an empty IN list. -/
def qC10 : SelectQuery :=
  { select := [], whereTree := .node "AND" false [.leaf fC "in" (pyList [])] }

/-- The cursor the lowering of `qC10` produces: no pending queries, not done. -/
def c10res : Cursor :=
  { results := Option.none, queries := [], start_cursor := Option.none,
    returned_ids := [], queried_fields := ["__key__", "c"], query_done := false,
    all_filters := [], last_query_model := some mT }

/-- C10: an IN predicate with an empty value list empties the pending query
set, and the next `fetchmany` raises `DatabaseError` (`Database.Error`)
instead of returning an empty result. -/
theorem empty_in_then_fetch_raises :
    execute_appengine_query mT qC10 initCursor = .ok c10res ∧
      c10res.queries = [] ∧
      fetchmany [] [] c10res 10 = .error .databaseError :=
  ⟨rfl, rfl, rfl⟩

/-- C9: a cursor whose `query_done` flag is set returns `[]` from `fetchmany`
unchanged, for EVERY datastore and cache — the early return performs no
datastore round-trip and no cache probe and leaves all cursor state intact. -/
theorem fetchmany_done_frame (ds : List Entity) (cache : List (String × Entity))
    (c : Cursor) (size : Nat) (h : c.query_done = true) :
    fetchmany ds cache c size = .ok ([], c) := by
  unfold fetchmany
  rw [h]
  rfl

/-- C9 (witness): the frame theorem at a fresh cursor (whose `query_done` is
initialized to `True`). -/
theorem fetchmany_done_frame_witness :
    fetchmany [] [] initCursor 5 = .ok ([], initCursor) :=
  fetchmany_done_frame [] [] initCursor 5 rfl

/-! ## C6: fetchmany size bound -/

def e1 : Entity := { kind := "t", key := .id 1, props := [("c", .int 1)] }

def e2 : Entity := { kind := "t", key := .id 2, props := [("c", .int 2)] }

def dsC6 : List Entity := [e1, e2]

/-- A cursor in multi-query mode with two one-row sub-queries. -/
def cMulti : Cursor :=
  { results := Option.none,
    queries := [NQ.multi [{ kind := "t", filters := [(("c", "="), .int 1)],
                            projection := Option.none },
                          { kind := "t", filters := [(("c", "="), .int 2)],
                            projection := Option.none }]],
    start_cursor := Option.none, returned_ids := [], queried_fields := ["c"],
    query_done := false, all_filters := [], last_query_model := Option.none }

/-- C6 (counterexample): in multi-query mode `Run()` is called with no limit
and the whole result set is returned — `fetchmany(1)` on `cMulti` over a
two-entity datastore returns 2 tuples, more than `size = 1`. -/
theorem fetchmany_multi_ignores_size :
    fetchmany dsC6 [] cMulti 1 =
      .ok ([[PyVal.int 1], [PyVal.int 2]],
           {cMulti with results := some [e1, e2], query_done := true}) ∧
      ¬ ([[PyVal.int 1], [PyVal.int 2]] : List (List PyVal)).length ≤ 1 :=
  ⟨rfl, by decide⟩

/-- C6 (amended): the size bound holds for the single-query paths only: on a
fresh fetch (no stored results) whose head query is a plain query, a cache
miss returns at most `size` tuples (the datastore fetch passes `limit=size`),
and a cache hit returns exactly one tuple.  Multi-query mode drains the whole
result set in one call and can exceed `size` (see the counterexample). -/
theorem fetchmany_single_query_size_bound
    (ds : List Entity) (cache : List (String × Entity)) (c : Cursor) (size : Nat)
    (q : Query) (rest : List NQ) (rows : List (List PyVal)) (c2 : Cursor)
    (hdone : c.query_done = false) (hres : c.results = Option.none)
    (hq : c.queries = NQ.single q :: rest)
    (hrun : fetchmany ds cache c size = .ok (rows, c2)) :
    (cacheProbe cache c = .ok Option.none → rows.length ≤ size) ∧
    (∀ e, cacheProbe cache c = .ok (some e) → rows.length = 1) := by
  unfold fetchmany at hrun
  rw [hdone, hres, hq] at hrun
  simp only [Bool.false_eq_true, if_false] at hrun
  cases hp : cacheProbe cache c with
  | error e =>
    rw [hp] at hrun
    cases hrun
  | ok hit =>
    rw [hp] at hrun
    cases hit with
    | none =>
      simp only [Except.ok.injEq, Prod.mk.injEq] at hrun
      constructor
      · intro _
        rw [← hrun.1]
        calc (((((runQuery ds q).drop (c.start_cursor.getD 0)).take size).map _).length)
            = ((((runQuery ds q).drop (c.start_cursor.getD 0)).take size)).length :=
              List.length_map _ _
          _ ≤ size := List.length_take_le _ _
      · intro e he
        simp at he
    | some e =>
      simp only [Except.ok.injEq, Prod.mk.injEq] at hrun
      constructor
      · intro hnone
        simp at hnone
      · intro e2 _
        rw [← hrun.1]
        rfl

/-- A single-query cursor for the C6 witness. -/
def cSingle : Cursor :=
  { results := Option.none,
    queries := [NQ.single { kind := "t", filters := [], projection := Option.none }],
    start_cursor := Option.none, returned_ids := [], queried_fields := ["c"],
    query_done := false, all_filters := [], last_query_model := Option.none }

/-- C6 (witness): the amended bound at a concrete single-query fetch with
`size = 1` over the two-entity datastore. -/
theorem fetchmany_single_query_size_bound_witness :
    ([[PyVal.int 1]] : List (List PyVal)).length ≤ 1 :=
  (fetchmany_single_query_size_bound dsC6 [] cSingle 1
    { kind := "t", filters := [], projection := Option.none } [] [[PyVal.int 1]]
    {cSingle with results := some [e1], start_cursor := some 1, query_done := false}
    rfl rfl rfl rfl).1 rfl

/-!
## C3: the projection guard

Projections only ever shrink during a lowering (the rebuild drops them, IN
clones never copy them, filter writes leave them alone), all pending queries
share one projection during a sane lowering (driver cursors hold at most one
pending query when `execute_appengine_query` starts), and
`_update_projection_state` clears every projection before a filter with a
forbidden type/lookup combination is applied to a projected column.  Hence no
emitted native query carries such a column in its projection. -/

/-- The projection of `q` is absent or avoids `col`. -/
def qProjClear (col : String) (q : Query) : Bool :=
  match q.projection with
  | Option.none => true
  | some l => !(l.contains col)

def optClear (col : String) (p : Option (List String)) : Bool :=
  match p with
  | Option.none => true
  | some l => !(l.contains col)

/-- No query reachable from this `queries` entry projects `col`. -/
def projClear (col : String) : NQ → Bool
  | .single q => qProjClear col q
  | .multi qs => qs.all (qProjClear col)

/-- Every pending query is a plain query carrying the same projection `p`. -/
def allSingleProjL (p : Option (List String)) (l : List NQ) : Prop :=
  ∀ nq ∈ l, ∃ qq : Query, nq = NQ.single qq ∧ qq.projection = p

def InvPL (l : List NQ) : Prop := ∃ p, allSingleProjL p l

def okColL (col : String) (l : List NQ) : Prop := ∀ nq ∈ l, projClear col nq = true

/-- The leaf `(f, lk, _)` occurs somewhere in the tree. -/
inductive HasLeaf : WTree → Field → String → Prop where
  | here : ∀ f lk v, HasLeaf (WTree.leaf f lk v) f lk
  | there : ∀ conn neg cs t f lk, t ∈ cs → HasLeaf t f lk →
      HasLeaf (WTree.node conn neg cs) f lk

theorem okColL_of_allSingleProjL {p : Option (List String)} {l : List NQ} {col : String}
    (h : allSingleProjL p l) (hc : optClear col p = true) : okColL col l := by
  intro nq hnq
  obtain ⟨qq, rfl, hproj⟩ := h nq hnq
  simp only [projClear, qProjClear, hproj]
  cases p with
  | none => rfl
  | some ll => simpa [optClear] using hc

theorem rebuildAll_allNone : ∀ (qs qs' : List NQ), qs.mapM rebuildOne = .ok qs' →
    allSingleProjL Option.none qs'
  | [], qs', h => by
    simp only [List.mapM_nil, pure, Except.pure, Except.ok.injEq] at h
    subst h
    intro nq hnq
    cases hnq
  | a :: rest, qs', h => by
    rw [List.mapM_cons] at h
    cases a with
    | multi _ =>
      simp [rebuildOne, Bind.bind, Except.bind] at h
    | single q =>
      simp only [rebuildOne, Bind.bind, Except.bind] at h
      cases hrest : rest.mapM rebuildOne with
      | error e => rw [hrest] at h; cases h
      | ok rest' =>
        rw [hrest] at h
        simp only [pure, Except.pure, Except.ok.injEq] at h
        subst h
        intro nq hnq
        rcases List.mem_cons.mp hnq with rfl | htail
        · exact ⟨_, rfl, rfl⟩
        · exact rebuildAll_allNone rest rest' hrest nq htail

theorem updateProjectionState_spec {f : Field} {lk : String} {st st' : Cursor} {b : Bool}
    {p : Option (List String)}
    (h : updateProjectionState f lk st = .ok (st', b))
    (hinv : allSingleProjL p st.queries) :
    (st' = st ∧ (optClear f.column p = true ∨ badCombo f lk = false)) ∨
      allSingleProjL Option.none st'.queries := by
  unfold updateProjectionState at h
  cases hq : st.queries with
  | nil => rw [hq] at h; cases h
  | cons q0 tail =>
    rw [hq] at h
    cases q0 with
    | multi _ =>
      exfalso
      obtain ⟨qq, hqq, _⟩ := hinv (NQ.multi _) (hq ▸ List.mem_cons_self _ _)
      cases hqq
    | single qq =>
      have hqqp : qq.projection = p := by
        obtain ⟨qq2, hqq2, hp2⟩ := hinv (NQ.single qq) (hq ▸ List.mem_cons_self _ _)
        cases hqq2
        exact hp2
      simp only at h
      split at h
      · -- early return: the guard says the current projection misses f.column
        rename_i hguard
        cases h
        left
        refine ⟨rfl, Or.inl ?_⟩
        rcases Bool.or_eq_true_iff.mp hguard with hemp | hnc
        · cases hp : qq.projection with
          | none => rw [hp] at hqqp; rw [← hqqp]; rfl
          | some l =>
            rw [hp] at hqqp
            rw [hp] at hemp
            rw [← hqqp]
            simp only [optClear]
            cases l with
            | nil => rfl
            | cons a as => simp [List.isEmpty] at hemp
        · cases hp : qq.projection with
          | none => rw [hp] at hqqp; rw [← hqqp]; rfl
          | some l =>
            rw [hp] at hqqp
            rw [hp] at hnc
            rw [← hqqp]
            simpa [optClear] using hnc
      · split at h
        · cases hmap : st.queries.mapM rebuildOne with
          | error e => rw [hq] at hmap; rw [hmap] at h; cases h
          | ok qs2 =>
            rw [hq] at hmap; rw [hmap] at h
            cases h
            right
            exact rebuildAll_allNone _ _ hmap
        · rename_i hdis
          cases h
          exact Or.inl ⟨rfl, Or.inr (Bool.not_eq_true _ ▸ Bool.of_not_eq_true hdis)⟩

theorem writeQ0_queries_shape {st st' : Cursor} {k : String × String} {v : PyVal}
    (h : writeQ0 st k v = .ok st') :
    ∃ q rest, st.queries = NQ.single q :: rest ∧
      st'.queries = NQ.single {q with filters := dictSet q.filters k v} :: rest := by
  unfold writeQ0 at h
  cases hq : st.queries with
  | nil => rw [hq] at h; cases h
  | cons q0 tail =>
    rw [hq] at h
    cases q0 with
    | multi _ => cases h
    | single q =>
      cases h
      exact ⟨q, tail, rfl, rfl⟩

theorem writeQ0_inv {st st' : Cursor} {k : String × String} {v : PyVal}
    (h : writeQ0 st k v = .ok st') :
    (∀ p, allSingleProjL p st.queries → allSingleProjL p st'.queries) ∧
    (∀ col, okColL col st.queries → okColL col st'.queries) := by
  obtain ⟨q, rest, hpre, hpost⟩ := writeQ0_queries_shape h
  constructor
  · intro p hinv nq hnq
    rw [hpost] at hnq
    rcases List.mem_cons.mp hnq with rfl | htail
    · obtain ⟨qq, hqq, hp⟩ := hinv (NQ.single q) (hpre ▸ List.mem_cons_self _ _)
      cases hqq
      exact ⟨_, rfl, hp⟩
    · exact hinv nq (hpre ▸ List.mem_cons_of_mem _ htail)
  · intro col hok nq hnq
    rw [hpost] at hnq
    rcases List.mem_cons.mp hnq with rfl | htail
    · have := hok (NQ.single q) (hpre ▸ List.mem_cons_self _ _)
      simpa [projClear, qProjClear] using this
    · exact hok nq (hpre ▸ List.mem_cons_of_mem _ htail)

theorem exactState_inv {f : Field} {lk : String} {st st1 : Cursor} {rebuilt : Bool}
    {p : Option (List String)}
    (hup : updateProjectionState f lk st = .ok (st1, rebuilt))
    (hp : allSingleProjL p st.queries) :
    InvPL st1.queries ∧ (∀ col, okColL col st.queries → okColL col st1.queries) := by
  rcases updateProjectionState_spec hup hp with ⟨rfl, _⟩ | hnone
  · exact ⟨⟨p, hp⟩, fun col hok => hok⟩
  · exact ⟨⟨Option.none, hnone⟩, fun col _ => okColL_of_allSingleProjL hnone rfl⟩

theorem applyExactTo_inv {f : Field} {v : PyVal} {st : Cursor} {nq : Query}
    {st' : Cursor} {nq' : Query}
    (h : applyExactTo f v st nq = .ok (st', nq'))
    (hinv : InvPL st.queries) :
    InvPL st'.queries ∧ (∀ col, okColL col st.queries → okColL col st'.queries) ∧
      nq'.projection = nq.projection := by
  obtain ⟨p, hp⟩ := hinv
  unfold applyExactTo at h
  simp only [] at h
  cases hnf : nq.filters with
  | nil =>
    rw [hnf] at h
    cases hq : st.queries with
    | nil => rw [hq] at h; cases h
    | cons q0 tail =>
      rw [hq] at h
      cases hup : updateProjectionState f "exact" st with
      | error e => rw [hup] at h; cases h
      | ok pair =>
        obtain ⟨st1, rebuilt⟩ := pair
        obtain ⟨hinv1, htr1⟩ := exactState_inv hup hp
        cases rebuilt with
        | true =>
          rw [hup] at h
          cases h
          exact ⟨hinv1, hq ▸ htr1, rfl⟩
        | false =>
          rw [hup] at h
          simp only [] at h
          cases hw : writeQ0 st1 (if f.primary_key then "__key__" else f.column, "=") v with
          | error e => rw [hw] at h; cases h
          | ok st2 =>
            rw [hw] at h
            cases h
            obtain ⟨p1, hp1⟩ := hinv1
            refine ⟨⟨p1, (writeQ0_inv hw).1 p1 hp1⟩, ?_, rfl⟩
            exact hq ▸ (fun col hok => (writeQ0_inv hw).2 col (htr1 col hok))
  | cons k rest =>
    rw [hnf] at h
    cases hup : updateProjectionState f "exact" st with
    | error e => rw [hup] at h; cases h
    | ok pair =>
      obtain ⟨st1, rebuilt⟩ := pair
      rw [hup] at h
      cases h
      obtain ⟨hinv1, htr1⟩ := exactState_inv hup hp
      exact ⟨hinv1, htr1, rfl⟩

/-- Fan-out queries accumulated by the IN expansion all carry no projection. -/
def accNone (acc : List NQ) : Prop :=
  ∀ nq ∈ acc, ∃ qq : Query, nq = NQ.single qq ∧ qq.projection = Option.none

theorem inExpandVals_inv {model : Model} {f : Field} {i : Nat} :
    ∀ {vs : List PyVal} {st : Cursor} {acc : List NQ} {st' : Cursor} {acc' : List NQ},
    inExpandVals model f i vs st acc = .ok (st', acc') →
    InvPL st.queries → accNone acc →
    InvPL st'.queries ∧ accNone acc' ∧
      (∀ col, okColL col st.queries → okColL col st'.queries)
  | [], st, acc, st', acc', h, hinv, hacc => by
    cases h
    exact ⟨hinv, hacc, fun col hok => hok⟩
  | v :: rest, st, acc, st', acc', h, hinv, hacc => by
    unfold inExpandVals at h
    cases hg : st.queries.get? i with
    | none => rw [hg] at h; cases h
    | some nqi =>
      rw [hg] at h
      cases nqi with
      | multi _ => cases h
      | single src =>
        simp only at h
        cases hae : applyExactTo f v st
            { kind := model.db_table, filters := dictUpdate [] src.filters,
              projection := Option.none } with
        | error e => rw [hae] at h; cases h
        | ok pair =>
          obtain ⟨st1, nq1⟩ := pair
          rw [hae] at h
          obtain ⟨hinv1, htrans1, hproj1⟩ := applyExactTo_inv hae hinv
          have hacc1 : accNone (acc ++ [NQ.single nq1]) := by
            intro nq hnq
            rcases List.mem_append.mp hnq with hl | hr
            · exact hacc nq hl
            · rcases List.mem_singleton.mp hr with rfl
              exact ⟨nq1, rfl, hproj1⟩
          obtain ⟨hinv2, hacc2, htrans2⟩ := inExpandVals_inv h hinv1 hacc1
          exact ⟨hinv2, hacc2, fun col hok => htrans2 col (htrans1 col hok)⟩

theorem inExpandQueries_inv {model : Model} {f : Field} :
    ∀ {idxs : List Nat} {vs : List PyVal} {st : Cursor} {acc : List NQ}
      {st' : Cursor} {acc' : List NQ},
    inExpandQueries model f idxs vs st acc = .ok (st', acc') →
    InvPL st.queries → accNone acc →
    InvPL st'.queries ∧ accNone acc'
  | [], vs, st, acc, st', acc', h, hinv, hacc => by
    cases h
    exact ⟨hinv, hacc⟩
  | i :: restIdx, vs, st, acc, st', acc', h, hinv, hacc => by
    unfold inExpandQueries at h
    cases hv : inExpandVals model f i vs st acc with
    | error e => rw [hv] at h; cases h
    | ok pair =>
      obtain ⟨st1, acc1⟩ := pair
      rw [hv] at h
      obtain ⟨hinv1, hacc1, _⟩ := inExpandVals_inv hv hinv hacc
      exact inExpandQueries_inv h hinv1 hacc1

theorem inExpand_inv {model : Model} {f : Field} {st : Cursor} {vs : List PyVal}
    {st' : Cursor}
    (h : inExpand model f st vs = .ok st')
    (hinv : InvPL st.queries) :
    allSingleProjL Option.none st'.queries := by
  unfold inExpand at h
  cases hq : inExpandQueries model f (List.range st.queries.length) vs st [] with
  | error e => rw [hq] at h; cases h
  | ok pair =>
    obtain ⟨st1, acc⟩ := pair
    rw [hq] at h
    cases h
    obtain ⟨_, hacc⟩ := inExpandQueries_inv hq hinv (fun nq hnq => by cases hnq)
    exact hacc

theorem applyFilter_inv {model : Model} {f : Field} {lk : String} {v : PyVal}
    {st st' : Cursor} {trip : Option (String × String × PyVal)}
    (h : applyFilter model f lk v st = .ok (st', trip))
    (hinv : InvPL st.queries) :
    InvPL st'.queries ∧ (∀ col, okColL col st.queries → okColL col st'.queries) := by
  obtain ⟨p, hp⟩ := hinv
  unfold applyFilter at h
  simp only [] at h
  cases hq : st.queries with
  | nil => rw [hq] at h; cases h
  | cons q0 tail =>
    rw [hq] at h
    cases hol : opLookup lk with
    | none => rw [hol] at h; cases h
    | some mappedOp =>
      rw [hol] at h
      cases hup : updateProjectionState f lk st with
      | error e => rw [hup] at h; cases h
      | ok pair =>
        obtain ⟨st1, rebuilt⟩ := pair
        obtain ⟨hinv1, htr1⟩ := exactState_inv hup hp
        cases mappedOp with
        | some op =>
          cases rebuilt with
          | true =>
            rw [hup] at h
            cases h
            exact ⟨hinv1, hq ▸ htr1⟩
          | false =>
            rw [hup] at h
            simp only [] at h
            cases hw : writeQ0 st1 (if f.primary_key then "__key__" else f.column, op) v with
            | error e => rw [hw] at h; cases h
            | ok st2 =>
              rw [hw] at h
              cases h
              obtain ⟨p1, hp1⟩ := hinv1
              refine ⟨⟨p1, (writeQ0_inv hw).1 p1 hp1⟩, ?_⟩
              exact hq ▸ (fun col hok => (writeQ0_inv hw).2 col (htr1 col hok))
        | none =>
          rw [hup] at h
          simp only [] at h
          split at h
          · cases hel : pyElems v with
            | none => rw [hel] at h; cases h
            | some vs =>
              rw [hel] at h
              simp only [] at h
              cases hie : inExpand model f st1 vs with
              | error e => rw [hie] at h; cases h
              | ok st2 =>
                rw [hie] at h
                cases h
                have hnone := inExpand_inv hie hinv1
                exact ⟨⟨Option.none, hnone⟩,
                       fun col _ => okColL_of_allSingleProjL hnone rfl⟩
          · cases h

theorem applyFilter_establishes {model : Model} {f : Field} {lk : String} {v : PyVal}
    {st st' : Cursor} {trip : Option (String × String × PyVal)}
    (h : applyFilter model f lk v st = .ok (st', trip))
    (hinv : InvPL st.queries)
    (hbad : badCombo f lk = true) :
    okColL f.column st'.queries := by
  obtain ⟨p, hp⟩ := hinv
  unfold applyFilter at h
  simp only [] at h
  cases hq : st.queries with
  | nil => rw [hq] at h; cases h
  | cons q0 tail =>
    rw [hq] at h
    cases hol : opLookup lk with
    | none => rw [hol] at h; cases h
    | some mappedOp =>
      rw [hol] at h
      cases hup : updateProjectionState f lk st with
      | error e => rw [hup] at h; cases h
      | ok pair =>
        obtain ⟨st1, rebuilt⟩ := pair
        have hok1 : okColL f.column st1.queries := by
          rcases updateProjectionState_spec hup hp with ⟨rfl, hcl | hbad'⟩ | hnone
          · exact okColL_of_allSingleProjL hp hcl
          · rw [hbad] at hbad'; cases hbad'
          · exact okColL_of_allSingleProjL hnone rfl
        have hinv1 : InvPL st1.queries := (exactState_inv hup hp).1
        cases mappedOp with
        | some op =>
          cases rebuilt with
          | true =>
            rw [hup] at h
            cases h
            exact hok1
          | false =>
            rw [hup] at h
            simp only [] at h
            cases hw : writeQ0 st1 (if f.primary_key then "__key__" else f.column, op) v with
            | error e => rw [hw] at h; cases h
            | ok st2 =>
              rw [hw] at h
              cases h
              exact (writeQ0_inv hw).2 _ hok1
        | none =>
          rw [hup] at h
          simp only [] at h
          split at h
          · cases hel : pyElems v with
            | none => rw [hel] at h; cases h
            | some vs =>
              rw [hel] at h
              simp only [] at h
              cases hie : inExpand model f st1 vs with
              | error e => rw [hie] at h; cases h
              | ok st2 =>
                rw [hie] at h
                cases h
                exact okColL_of_allSingleProjL (inExpand_inv hie hinv1) rfl
          · cases h

theorem dynAppend_queries {st : Cursor} {d : Dyn} {t : String × String × PyVal} {st' : Cursor}
    (h : dynAppend st d t = .ok st') : st'.queries = st.queries := by
  cases d with
  | theList => cases h; rfl
  | bool b => cases h

theorem applyFiltersList_inv : ∀ (fuel : Nat) (model : Model) (st : Cursor) (cs : List WTree)
    (allf negd : Dyn) (st' : Cursor),
    applyFiltersList fuel model st cs allf negd = .ok st' →
    InvPL st.queries →
    InvPL st'.queries ∧ (∀ col, okColL col st.queries → okColL col st'.queries)
  | 0, _, _, _, _, _, _, h, _ => by cases h
  | _ + 1, _, st, [], _, _, st', h, hinv => by
    cases h
    exact ⟨hinv, fun _ hok => hok⟩
  | fuel + 1, model, st, (.leaf f lk v) :: rest, allf, negd, st', h, hinv => by
    unfold applyFiltersList at h
    cases haf : applyFilter model f lk v st with
    | error e => rw [haf] at h; cases h
    | ok pair =>
      obtain ⟨st1, trip⟩ := pair
      rw [haf] at h
      simp only [] at h
      obtain ⟨hinv1, htr1⟩ := applyFilter_inv haf hinv
      cases trip with
      | none =>
        obtain ⟨hinv2, htr2⟩ :=
          applyFiltersList_inv fuel model st1 rest allf negd st' h hinv1
        exact ⟨hinv2, fun col hok => htr2 col (htr1 col hok)⟩
      | some t =>
        simp only [] at h
        cases hda : dynAppend st1 allf t with
        | error e => rw [hda] at h; cases h
        | ok st2 =>
          rw [hda] at h
          have hq2 := dynAppend_queries hda
          obtain ⟨hinv2, htr2⟩ :=
            applyFiltersList_inv fuel model st2 rest allf negd st' h (hq2 ▸ hinv1)
          exact ⟨hinv2, fun col hok => htr2 col (hq2 ▸ htr1 col hok)⟩
  | fuel + 1, model, st, (.node conn negFlag ch) :: rest, allf, negd, st', h, hinv => by
    unfold applyFiltersList at h
    simp only [] at h
    cases negFlag with
    | true =>
      split at h
      · cases h
      · cases hin : applyFiltersList fuel model st ch negd
            (Dyn.bool (!(dynTruthy st allf))) with
        | error e => rw [hin] at h; cases h
        | ok st1 =>
          rw [hin] at h
          obtain ⟨hinv1, htr1⟩ :=
            applyFiltersList_inv fuel model st ch negd _ st1 hin hinv
          obtain ⟨hinv2, htr2⟩ :=
            applyFiltersList_inv fuel model st1 rest allf negd st' h hinv1
          exact ⟨hinv2, fun col hok => htr2 col (htr1 col hok)⟩
    | false =>
      split at h
      · cases h
      · cases hin : applyFiltersList fuel model st ch negd allf with
        | error e => rw [hin] at h; cases h
        | ok st1 =>
          rw [hin] at h
          obtain ⟨hinv1, htr1⟩ :=
            applyFiltersList_inv fuel model st ch negd _ st1 hin hinv
          obtain ⟨hinv2, htr2⟩ :=
            applyFiltersList_inv fuel model st1 rest allf negd st' h hinv1
          exact ⟨hinv2, fun col hok => htr2 col (htr1 col hok)⟩

theorem applyFiltersList_establishes :
    ∀ (fuel : Nat) (model : Model) (st : Cursor) (cs : List WTree)
    (allf negd : Dyn) (st' : Cursor) (f : Field) (lk : String),
    applyFiltersList fuel model st cs allf negd = .ok st' →
    InvPL st.queries →
    (∃ t ∈ cs, HasLeaf t f lk) →
    badCombo f lk = true →
    okColL f.column st'.queries
  | 0, _, _, _, _, _, _, _, _, h, _, _, _ => by cases h
  | _ + 1, _, _, [], _, _, _, _, _, _, _, hex, _ => by
    obtain ⟨t, ht, _⟩ := hex
    cases ht
  | fuel + 1, model, st, c :: rest, allf, negd, st', f, lk, h, hinv, hex, hbad => by
    obtain ⟨t, ht, hleafT⟩ := hex
    rcases List.mem_cons.mp ht with rfl | hrest
    · -- the bad leaf sits inside the head child
      cases hleafT with
      | here _ _ v =>
        -- the head child is the bad leaf itself
        unfold applyFiltersList at h
        cases haf : applyFilter model f lk v st with
        | error e => rw [haf] at h; cases h
        | ok pair =>
          obtain ⟨st1, trip⟩ := pair
          rw [haf] at h
          simp only [] at h
          have hok1 : okColL f.column st1.queries := applyFilter_establishes haf hinv hbad
          have hinv1 : InvPL st1.queries := (applyFilter_inv haf hinv).1
          cases trip with
          | none =>
            exact (applyFiltersList_inv fuel model st1 rest allf negd st' h hinv1).2
              f.column hok1
          | some tr =>
            simp only [] at h
            cases hda : dynAppend st1 allf tr with
            | error e => rw [hda] at h; cases h
            | ok st2 =>
              rw [hda] at h
              have hq2 := dynAppend_queries hda
              exact (applyFiltersList_inv fuel model st2 rest allf negd st' h
                (hq2 ▸ hinv1)).2 f.column (hq2 ▸ hok1)
      | there conn negFlag ch t2 _ _ ht2 hleaf2 =>
        -- the head child is a node containing the bad leaf
        unfold applyFiltersList at h
        simp only [] at h
        cases negFlag with
        | true =>
          split at h
          · cases h
          · cases hin : applyFiltersList fuel model st ch negd
                (Dyn.bool (!(dynTruthy st allf))) with
            | error e => rw [hin] at h; cases h
            | ok st1 =>
              rw [hin] at h
              have hok1 := applyFiltersList_establishes fuel model st ch negd _ st1 f lk
                hin hinv ⟨t2, ht2, hleaf2⟩ hbad
              have hinv1 := (applyFiltersList_inv fuel model st ch negd _ st1 hin hinv).1
              exact (applyFiltersList_inv fuel model st1 rest allf negd st' h hinv1).2
                f.column hok1
        | false =>
          split at h
          · cases h
          · cases hin : applyFiltersList fuel model st ch negd allf with
            | error e => rw [hin] at h; cases h
            | ok st1 =>
              rw [hin] at h
              have hok1 := applyFiltersList_establishes fuel model st ch negd _ st1 f lk
                hin hinv ⟨t2, ht2, hleaf2⟩ hbad
              have hinv1 := (applyFiltersList_inv fuel model st ch negd _ st1 hin hinv).1
              exact (applyFiltersList_inv fuel model st1 rest allf negd st' h hinv1).2
                f.column hok1
    · -- the bad leaf sits in the remaining children
      cases c with
      | leaf f0 lk0 v0 =>
        unfold applyFiltersList at h
        cases haf : applyFilter model f0 lk0 v0 st with
        | error e => rw [haf] at h; cases h
        | ok pair =>
          obtain ⟨st1, trip⟩ := pair
          rw [haf] at h
          simp only [] at h
          have hinv1 : InvPL st1.queries := (applyFilter_inv haf hinv).1
          cases trip with
          | none =>
            exact applyFiltersList_establishes fuel model st1 rest allf negd st' f lk h
              hinv1 ⟨t, hrest, hleafT⟩ hbad
          | some tr =>
            simp only [] at h
            cases hda : dynAppend st1 allf tr with
            | error e => rw [hda] at h; cases h
            | ok st2 =>
              rw [hda] at h
              exact applyFiltersList_establishes fuel model st2 rest allf negd st' f lk h
                ((dynAppend_queries hda) ▸ hinv1) ⟨t, hrest, hleafT⟩ hbad
      | node conn negFlag ch =>
        unfold applyFiltersList at h
        simp only [] at h
        cases negFlag with
        | true =>
          split at h
          · cases h
          · cases hin : applyFiltersList fuel model st ch negd
                (Dyn.bool (!(dynTruthy st allf))) with
            | error e => rw [hin] at h; cases h
            | ok st1 =>
              rw [hin] at h
              have hinv1 := (applyFiltersList_inv fuel model st ch negd _ st1 hin hinv).1
              exact applyFiltersList_establishes fuel model st1 rest allf negd st' f lk h
                hinv1 ⟨t, hrest, hleafT⟩ hbad
        | false =>
          split at h
          · cases h
          · cases hin : applyFiltersList fuel model st ch negd allf with
            | error e => rw [hin] at h; cases h
            | ok st1 =>
              rw [hin] at h
              have hinv1 := (applyFiltersList_inv fuel model st ch negd _ st1 hin hinv).1
              exact applyFiltersList_establishes fuel model st1 rest allf negd st' f lk h
                hinv1 ⟨t, hrest, hleafT⟩ hbad

theorem mapM_asPlainQuery_mem : ∀ (l : List NQ) (plain : List Query),
    l.mapM asPlainQuery = .ok plain → ∀ q ∈ plain, NQ.single q ∈ l
  | [], plain, h => by
    simp only [List.mapM_nil, pure, Except.pure, Except.ok.injEq] at h
    subst h
    intro q hq
    cases hq
  | a :: rest, plain, h => by
    rw [List.mapM_cons] at h
    cases a with
    | multi _ => simp [asPlainQuery, Bind.bind, Except.bind] at h
    | single q0 =>
      simp only [asPlainQuery, Bind.bind, Except.bind] at h
      cases hrest : rest.mapM asPlainQuery with
      | error e => rw [hrest] at h; cases h
      | ok rest' =>
        rw [hrest] at h
        simp only [pure, Except.pure, Except.ok.injEq] at h
        subst h
        intro q hq
        rcases List.mem_cons.mp hq with rfl | htail
        · exact List.mem_cons_self _ _
        · exact List.mem_cons_of_mem _ (mapM_asPlainQuery_mem rest rest' hrest q htail)

theorem setupQueryState_inv (model : Model) (c : Cursor) (queried : List String)
    (projection : Option (List String)) (hlen : c.queries.length ≤ 1) :
    InvPL (setupQueryState model c queried projection).queries := by
  refine ⟨projection, ?_⟩
  intro nq hnq
  simp only [setupQueryState] at hnq
  cases hcq : c.queries with
  | nil =>
    rw [hcq] at hnq
    rcases List.mem_singleton.mp hnq with rfl
    exact ⟨_, rfl, rfl⟩
  | cons x rest =>
    rw [hcq] at hnq
    rcases List.mem_cons.mp hnq with rfl | htail
    · exact ⟨_, rfl, rfl⟩
    · exfalso
      rw [hcq] at hlen
      simp only [List.length_cons] at hlen
      have : rest = [] := List.length_eq_zero.mp (by omega)
      rw [this] at htail
      cases htail

theorem apply_filters_establishes {model : Model} {st : Cursor} {t : WTree} {st' : Cursor}
    {f : Field} {lk : String}
    (h : apply_filters model st t = .ok st')
    (hinv : InvPL st.queries)
    (hocc : HasLeaf t f lk)
    (hbad : badCombo f lk = true) :
    okColL f.column st'.queries := by
  cases t with
  | leaf f0 lk0 v0 => cases h
  | node conn negFlag ch =>
    have hex : ∃ t2 ∈ ch, HasLeaf t2 f lk := by
      cases hocc with
      | there _ _ _ t2 _ _ ht2 hl2 => exact ⟨t2, ht2, hl2⟩
    unfold apply_filters at h
    simp only [] at h
    cases negFlag with
    | true =>
      split at h
      · cases h
      · exact applyFiltersList_establishes RECURSION_LIMIT model st ch Dyn.theList _ st'
          f lk h hinv hex hbad
    | false =>
      split at h
      · cases h
      · exact applyFiltersList_establishes RECURSION_LIMIT model st ch Dyn.theList _ st'
          f lk h hinv hex hbad

/-- C3: for every lowering run by `execute_appengine_query` from a driver
cursor (at most one pending query, as every driver-created or previously
completed cursor has), if the accepted WHERE tree contains a leaf on field `f`
whose storage type is text or bytes or whose lookup is exact or in, then no
emitted native query — inside or outside the multi-query envelope — carries
`f.column` in its projection.  (`_update_projection_state` strips the
projection from every pending query before such a filter is applied, IN clones
never copy a projection, and nothing ever re-adds one.) -/
theorem projection_guard (model : Model) (q : SelectQuery) (c c' : Cursor)
    (f : Field) (lk : String)
    (hlen : c.queries.length ≤ 1)
    (hrun : execute_appengine_query model q c = .ok c')
    (hocc : HasLeaf q.whereTree f lk)
    (hbad : badCombo f lk = true) :
    c'.queries.all (projClear f.column) = true := by
  unfold execute_appengine_query at hrun
  cases hpk : model.fields.find? (fun f => f.primary_key) with
  | none => rw [hpk] at hrun; cases hrun
  | some pkf =>
    rw [hpk] at hrun
    simp only [] at hrun
    cases hap : apply_filters model
        (setupQueryState model c
          (replaceFirst
            (if q.select.isEmpty then model.fields.map (fun f => f.column) else q.select)
            pkf.name "__key__")
          (if q.select.isEmpty then Option.none
           else some (replaceFirst
             (if q.select.isEmpty then model.fields.map (fun f => f.column) else q.select)
             pkf.name "__key__")))
        q.whereTree with
    | error e => rw [hap] at hrun; cases hrun
    | ok st1 =>
      rw [hap] at hrun
      simp only [] at hrun
      have hok1 : okColL f.column st1.queries :=
        apply_filters_establishes hap
          (setupQueryState_inv model c _ _ hlen) hocc hbad
      cases hq1 : st1.queries with
      | nil =>
        rw [hq1] at hrun
        simp only [] at hrun
        cases hrun
        simp [List.all_eq_true]
      | cons nq1 tailq =>
        cases tailq with
        | nil =>
          rw [hq1] at hrun
          simp only [] at hrun
          cases hrun
          simp only [List.all_eq_true]
          intro nq hnq
          rcases List.mem_singleton.mp hnq with rfl
          exact hok1 nq (hq1 ▸ List.mem_cons_self _ _)
        | cons nq2 tailq2 =>
          rw [hq1] at hrun
          simp only [] at hrun
          cases hmm : (nq1 :: nq2 :: tailq2).mapM asPlainQuery with
          | error e => rw [hmm] at hrun; cases hrun
          | ok plain =>
            rw [hmm] at hrun
            cases hrun
            simp only [List.all_eq_true]
            intro nq hnq
            rcases List.mem_singleton.mp hnq with rfl
            simp only [projClear, List.all_eq_true]
            intro qq hqq
            have hmem := mapM_asPlainQuery_mem _ _ hmm qq hqq
            have := hok1 (NQ.single qq) (hq1 ▸ hmem)
            simpa [projClear] using this

def fTitle : Field := { name := "title", column := "title", db_type := "string",
                        unique := false, primary_key := false, null := true }

def fBody : Field := { name := "body", column := "body", db_type := "text",
                       unique := false, primary_key := false, null := true }

def mDoc : Model := { app_label := "a", db_table := "doc",
                      fields := [fId, fTitle, fBody], unique_together := [] }

/-- Spec scenario 3: projection `[title, body]` with an exact filter on
`title`. -/
def qC3 : SelectQuery :=
  { select := ["title", "body"],
    whereTree := .node "AND" false [.leaf fTitle "exact" (.str "x")] }

/-- The cursor the lowering of `qC3` produces: projection cleared everywhere
(and, a separate misbehavior outside this claim, the `title` filter lost to
the detached pre-rebuild query object). -/
def c3res : Cursor :=
  { results := Option.none,
    queries := [NQ.single { kind := "doc", filters := [], projection := Option.none }],
    start_cursor := Option.none, returned_ids := [],
    queried_fields := ["title", "body"], query_done := false,
    all_filters := [("title", "=", PyVal.str "x")],
    last_query_model := some mDoc }

/-- C3 (witness): the projection guard at the concrete scenario-3 lowering. -/
theorem projection_guard_witness :
    execute_appengine_query mDoc qC3 initCursor = .ok c3res ∧
      c3res.queries.all (projClear "title") = true :=
  ⟨rfl,
   projection_guard mDoc qC3 initCursor c3res fTitle "exact" (by decide) rfl
     (HasLeaf.there "AND" false [WTree.leaf fTitle "exact" (PyVal.str "x")]
       (WTree.leaf fTitle "exact" (PyVal.str "x")) fTitle "exact"
       (List.mem_singleton.mpr rfl) (HasLeaf.here fTitle "exact" (PyVal.str "x"))) rfl⟩

end Djangae
